import Mathlib

/-
Verification of the core of a browser-history search program
(`history_search.py`): profile discovery, snapshot fetching, relevance
scoring and ranking, and the search orchestrator.  Python strings are
modelled as lists of characters, machine integers as `Int`, nullable
values as `Option`, and the external collaborators (filesystem, SQLite)
as explicit data passed to the embedded functions.
-/

namespace HistorySearch

/-- Python strings are modelled as lists of characters. -/
abbrev Str := List Char

/-- Model of Python str.lower restricted to the character ranges the
program manipulates: ASCII letters and the Cyrillic block (А-Я, Ё)
named in TOKEN_SPLIT_RE.  Other characters are left unchanged. -/
def lowerChar (c : Char) : Char :=
  if 'A' ≤ c ∧ c ≤ 'Z' then Char.ofNat (c.toNat + 32)
  else if 'А' ≤ c ∧ c ≤ 'Я' then Char.ofNat (c.toNat + 32)
  else if c = 'Ё' then 'ё'
  else c

/-- Python str.lower over a whole string. -/
def strLower (s : Str) : Str := s.map lowerChar

/-- Membership in the complement of TOKEN_SPLIT_RE, the character class
of `[0-9a-zа-яё]` together with the upper-case letters admitted by the
IGNORECASE flag. -/
def isWordChar (c : Char) : Bool :=
  ('0' ≤ c && c ≤ '9') || ('a' ≤ c && c ≤ 'z') || ('A' ≤ c && c ≤ 'Z') ||
  ('а' ≤ c && c ≤ 'я') || ('А' ≤ c && c ≤ 'Я') || c == 'ё' || c == 'Ё'

/-- Accumulator-style splitter behind `tokens`; `cur` holds the current
token reversed. -/
def tokensAux : Str → Str → List Str
  | [], cur => if cur.isEmpty then [] else [cur.reverse]
  | c :: rest, cur =>
    if isWordChar c then tokensAux rest (c :: cur)
    else if cur.isEmpty then tokensAux rest []
    else cur.reverse :: tokensAux rest []

/-- Nonempty tokens of TOKEN_SPLIT_RE.split: the maximal runs of word
characters (re.split on `[^0-9a-zа-яё]+` followed by the `if token`
filter of `_word_startswith`). -/
def tokens (s : Str) : List Str := tokensAux s []

/-- Python substring containment, `needle in hay`. -/
def isSubstrOf (q : Str) : Str → Bool
  | [] => q.isPrefixOf []
  | s@(_ :: rest) => q.isPrefixOf s || isSubstrOf q rest

/-- Model of `_word_startswith(text, prefix)`: an empty text never
matches; otherwise some nonempty token of the lower-cased text starts
with the given string. -/
def word_startswith (text pre : Str) : Bool :=
  if text.isEmpty then false
  else (tokens (strLower text)).any (fun t => pre.isPrefixOf t)

/-- Characters CPython allows in a URL scheme. -/
def isSchemeChar (c : Char) : Bool :=
  ('a' ≤ c && c ≤ 'z') || ('A' ≤ c && c ≤ 'Z') || ('0' ≤ c && c ≤ '9') ||
  c == '+' || c == '-' || c == '.'

/-- ASCII letter test used by CPython's scheme recognition. -/
def isAsciiAlpha (c : Char) : Bool :=
  ('a' ≤ c && c ≤ 'z') || ('A' ≤ c && c ≤ 'Z')

/-- The two components of a parsed URL that `_score_row` reads. -/
structure UrlParts where
  netloc : Str
  path : Str
deriving DecidableEq

/-- Model of urllib.parse.urlparse restricted to the fields the program
reads (netloc and path), following CPython's urlsplit: an optional
scheme up to the first colon, an optional `//netloc` component ending at
the next slash, question mark or hash, then the fragment (after the
first hash) and the query (after the first question mark of what
remains) are cut off; what is left is the path.  Path parameters after a
semicolon are not modelled. -/
def urlparse (url : Str) : UrlParts :=
  let sch := url.takeWhile (fun c => c != ':')
  let url1 :=
    if sch.length < url.length ∧ sch ≠ [] ∧ isAsciiAlpha (sch.headD 'a') ∧ sch.all isSchemeChar
    then url.drop (sch.length + 1) else url
  let hasNetloc := ("//".toList).isPrefixOf url1
  let rest := if hasNetloc then url1.drop 2 else url1
  let netloc :=
    if hasNetloc then rest.takeWhile (fun c => c != '/' && c != '?' && c != '#') else []
  let url2 := if hasNetloc then rest.drop netloc.length else rest
  let url3 := url2.takeWhile (fun c => c != '#')
  ⟨netloc, url3.takeWhile (fun c => c != '?')⟩

/-- Model of `_score_row(url, title, visit_count, typed_count,
query_lower)`, keeping the accumulator structure of the source: each
field adds at most one tier to the running score, then the popularity
bonus is added. -/
def _score_row (url title : Option Str) (visit_count typed_count : Option Int)
    (query_lower : Str) : Int :=
  let title_lower := strLower (title.getD [])
  let parsed := urlparse (url.getD [])
  let host := strLower parsed.netloc
  let path := strLower parsed.path
  let score : Int := 0
  let score :=
    if query_lower.isPrefixOf title_lower then score + 400
    else if word_startswith title_lower query_lower then score + 260
    else if isSubstrOf query_lower title_lower then score + 80
    else score
  let score :=
    if query_lower.isPrefixOf host then score + 350
    else if isSubstrOf query_lower host then score + 140
    else score
  let score :=
    if query_lower.isPrefixOf path then score + 120
    else if word_startswith path query_lower then score + 90
    else if isSubstrOf query_lower path then score + 40
    else score
  let typed := typed_count.getD 0
  let visits := visit_count.getD 0
  score + min typed 20 * 15 + min visits 50 * 2

/-- Title tier as the specification words it: 400 for a whole-title
match at the start, else 260 for a token match at the start, else 80 for
a substring match, else 0. -/
def titleTier (title_lower q : Str) : Int :=
  if q.isPrefixOf title_lower then 400
  else if word_startswith title_lower q then 260
  else if isSubstrOf q title_lower then 80
  else 0

/-- Host tier as the specification words it. -/
def hostTier (host q : Str) : Int :=
  if q.isPrefixOf host then 350
  else if isSubstrOf q host then 140
  else 0

/-- Path tier as the specification words it. -/
def pathTier (path q : Str) : Int :=
  if q.isPrefixOf path then 120
  else if word_startswith path q then 90
  else if isSubstrOf q path then 40
  else 0

/-- Popularity bonus as the specification words it, with null counts
treated as 0. -/
def popularityBonus (visit_count typed_count : Option Int) : Int :=
  min (typed_count.getD 0) 20 * 15 + min (visit_count.getD 0) 50 * 2

/-- Reshaping of a two-tier accumulation step into base plus tier. -/
theorem addTier2 (s a b : Int) (c1 c2 : Prop) [Decidable c1] [Decidable c2] :
    (if c1 then s + a else if c2 then s + b else s)
      = s + (if c1 then a else if c2 then b else 0) := by
  split_ifs <;> ring

/-- Reshaping of a three-tier accumulation step into base plus tier. -/
theorem addTier3 (s a b c : Int) (c1 c2 c3 : Prop)
    [Decidable c1] [Decidable c2] [Decidable c3] :
    (if c1 then s + a else if c2 then s + b else if c3 then s + c else s)
      = s + (if c1 then a else if c2 then b else if c3 then c else 0) := by
  split_ifs <;> ring

/-- C2: for every entry and non-empty lower-cased query, the score of
`_score_row` is the sum of exactly one tier per field (title, host,
path of the parsed URL, each lower-cased) plus the popularity bonus;
tiers within a field never stack. -/
theorem score_row_is_tier_sum (url title : Option Str)
    (visit_count typed_count : Option Int) (q : Str) (_hq : q ≠ []) :
    _score_row url title visit_count typed_count q =
      titleTier (strLower (title.getD [])) q
      + hostTier (strLower (urlparse (url.getD [])).netloc) q
      + pathTier (strLower (urlparse (url.getD [])).path) q
      + popularityBonus visit_count typed_count := by
  simp only [_score_row, titleTier, hostTier, pathTier, popularityBonus]
  rw [addTier3, addTier2, addTier3]
  ring

/-- Witness for C2 at a concrete entry and the query "git". -/
theorem score_row_is_tier_sum_w :
    ("git".toList : Str) ≠ [] ∧
    _score_row (some "https://github.com/x".toList) (some "GitHub".toList)
        (some 3) (some 1) "git".toList =
      titleTier (strLower ("GitHub".toList)) "git".toList
      + hostTier (strLower (urlparse ("https://github.com/x".toList)).netloc) "git".toList
      + pathTier (strLower (urlparse ("https://github.com/x".toList)).path) "git".toList
      + popularityBonus (some 3) (some 1) :=
  ⟨by decide,
   score_row_is_tier_sum (some "https://github.com/x".toList) (some "GitHub".toList)
     (some 3) (some 1) "git".toList (by decide)⟩

/-- An entry dict as built by `_fetch_entries` and enriched by
`search_history`; fields absent from the dict are `none`. -/
structure VisitEntry where
  url : Option Str := none
  title : Option Str := none
  visit_count : Option Int := none
  last_visit_time : Option Int := none
  typed_count : Option Int := none
  profile_label : Option Str := none
  profile_icon : Option Str := none
  profile_id : Option Str := none
deriving DecidableEq

/-- Sort key of the no-query branch: `entry['last_visit_time'] or 0`. -/
def lvtKey (e : VisitEntry) : Int := e.last_visit_time.getD 0

/-- Stable descending comparison modelling
`entries.sort(key=lambda e: e['last_visit_time'] or 0, reverse=True)`:
Python's sort is stable, and reverse=True keeps equal keys in their
original relative order, which is exactly a stable merge sort under this
relation. -/
def lvtLe (a b : VisitEntry) : Bool := decide (lvtKey b ≤ lvtKey a)

/-- The scored triple `(score, last_visit_time or 0, entry)` built in the
query branch of `_rank_entries`. -/
def mkScored (query_lower : Str) (e : VisitEntry) : Int × Int × VisitEntry :=
  (_score_row e.url e.title e.visit_count e.typed_count query_lower,
   e.last_visit_time.getD 0, e)

/-- Stable descending lexicographic comparison on `(score, time)`
modelling `scored.sort(key=lambda item: (item[0], item[1]), reverse=True)`. -/
def scoredKeyLe (a b : Int × Int × VisitEntry) : Bool :=
  decide (b.1 < a.1 ∨ (b.1 = a.1 ∧ b.2.1 ≤ a.2.1))

/-- Model of `_rank_entries(entries, query, limit)`. -/
def _rank_entries (entries : List VisitEntry) (query : Str) (limit : Nat) :
    List VisitEntry :=
  if entries = [] then []
  else if query = [] then (entries.mergeSort lvtLe).take limit
  else
    let query_lower := strLower query
    let scored := entries.map (mkScored query_lower)
    ((scored.mergeSort scoredKeyLe).take limit).map (fun t => t.2.2)

/-- The score `_rank_entries` assigns to an entry for a given raw query. -/
def scoreOf (query : Str) (e : VisitEntry) : Int :=
  _score_row e.url e.title e.visit_count e.typed_count (strLower query)

theorem lvtLe_trans (a b c : VisitEntry) (h1 : lvtLe a b = true)
    (h2 : lvtLe b c = true) : lvtLe a c = true := by
  simp only [lvtLe, decide_eq_true_eq] at h1 h2 ⊢
  omega

theorem lvtLe_total (a b : VisitEntry) : (lvtLe a b || lvtLe b a) = true := by
  simp only [lvtLe, Bool.or_eq_true, decide_eq_true_eq]
  omega

theorem scoredKeyLe_trans (a b c : Int × Int × VisitEntry)
    (h1 : scoredKeyLe a b = true) (h2 : scoredKeyLe b c = true) :
    scoredKeyLe a c = true := by
  simp only [scoredKeyLe, decide_eq_true_eq] at h1 h2 ⊢
  omega

theorem scoredKeyLe_total (a b : Int × Int × VisitEntry) :
    (scoredKeyLe a b || scoredKeyLe b a) = true := by
  simp only [scoredKeyLe, Bool.or_eq_true, decide_eq_true_eq]
  omega

/-- Every element of the scored pool carries its entry's score and
recency key. -/
theorem mem_scored_shape (ql : Str) (entries : List VisitEntry)
    (x : Int × Int × VisitEntry) (hx : x ∈ entries.map (mkScored ql)) :
    x.1 = _score_row x.2.2.url x.2.2.title x.2.2.visit_count x.2.2.typed_count ql
      ∧ x.2.1 = x.2.2.last_visit_time.getD 0 := by
  rcases List.mem_map.1 hx with ⟨e, _, rfl⟩
  exact ⟨rfl, rfl⟩

/-- The sorted, truncated scored pool is pairwise ordered by the
descending lexicographic key. -/
theorem take_sorted_pairwise (ql : Str) (entries : List VisitEntry) (limit : Nat) :
    List.Pairwise (fun a b => scoredKeyLe a b = true)
      (((entries.map (mkScored ql)).mergeSort scoredKeyLe).take limit) :=
  List.Pairwise.sublist (List.take_sublist _ _)
    (List.sorted_mergeSort scoredKeyLe_trans scoredKeyLe_total _)

/-- C1: for every non-empty query, the query branch of `_rank_entries`
sorts the scored pool by (score descending, last_visit_time descending)
and returns the entries of the first `limit` elements; consequently the
scores of the returned sequence are non-increasing, and any two returned
entries with equal scores (in particular those sharing the maximum
score) have non-increasing last_visit_time. -/
theorem rank_entries_query_spec (entries : List VisitEntry) (query : Str)
    (limit : Nat) (hq : query ≠ []) :
    _rank_entries entries query limit =
      (((entries.map (mkScored (strLower query))).mergeSort scoredKeyLe).take limit).map
        (fun t => t.2.2)
    ∧ List.Pairwise (fun a b => scoreOf query b ≤ scoreOf query a)
        (_rank_entries entries query limit)
    ∧ List.Pairwise (fun a b => scoreOf query a = scoreOf query b → lvtKey b ≤ lvtKey a)
        (_rank_entries entries query limit) := by
  have heq : _rank_entries entries query limit =
      (((entries.map (mkScored (strLower query))).mergeSort scoredKeyLe).take limit).map
        (fun t => t.2.2) := by
    unfold _rank_entries
    rcases em (entries = []) with he | he
    · subst he
      simp
    · rw [if_neg he, if_neg hq]
  set ql := strLower query with hql
  have hsorted := take_sorted_pairwise ql entries limit
  have hmem : ∀ x ∈ ((entries.map (mkScored ql)).mergeSort scoredKeyLe).take limit,
      x.1 = _score_row x.2.2.url x.2.2.title x.2.2.visit_count x.2.2.typed_count ql
        ∧ x.2.1 = x.2.2.last_visit_time.getD 0 := by
    intro x hx
    exact mem_scored_shape ql entries x
      (((List.mergeSort_perm (entries.map (mkScored ql)) scoredKeyLe).mem_iff).1
        (List.Sublist.mem hx (List.take_sublist _ _)))
  refine ⟨heq, ?_, ?_⟩
  · rw [heq, List.pairwise_map]
    refine List.Pairwise.imp_of_mem ?_ hsorted
    intro a b ha hb hab
    have hsa := (hmem a ha).1
    have hsb := (hmem b hb).1
    simp only [scoredKeyLe, decide_eq_true_eq] at hab
    simp only [scoreOf, ← hql, ← hsa, ← hsb]
    omega
  · rw [heq, List.pairwise_map]
    refine List.Pairwise.imp_of_mem ?_ hsorted
    intro a b ha hb hab
    have hsa := (hmem a ha).1
    have hsb := (hmem b hb).1
    have hta := (hmem a ha).2
    have htb := (hmem b hb).2
    simp only [scoredKeyLe, decide_eq_true_eq] at hab
    simp only [scoreOf, ← hql, ← hsa, ← hsb, lvtKey, ← hta, ← htb]
    omega

/-- Witness for C1 on a two-entry pool and the query "g". -/
theorem rank_entries_query_spec_w :
    (("g".toList : Str) ≠ []) ∧
    (_rank_entries [⟨none, some "gh".toList, none, some 1, none, none, none, none⟩,
        ⟨none, none, none, some 2, none, none, none, none⟩] "g".toList 2 =
      ((([⟨none, some "gh".toList, none, some 1, none, none, none, none⟩,
          ⟨none, none, none, some 2, none, none, none, none⟩].map
            (mkScored (strLower "g".toList))).mergeSort scoredKeyLe).take 2).map
        (fun t => t.2.2)
    ∧ List.Pairwise (fun a b => scoreOf "g".toList b ≤ scoreOf "g".toList a)
        (_rank_entries [⟨none, some "gh".toList, none, some 1, none, none, none, none⟩,
          ⟨none, none, none, some 2, none, none, none, none⟩] "g".toList 2)
    ∧ List.Pairwise
        (fun a b => scoreOf "g".toList a = scoreOf "g".toList b → lvtKey b ≤ lvtKey a)
        (_rank_entries [⟨none, some "gh".toList, none, some 1, none, none, none, none⟩,
          ⟨none, none, none, some 2, none, none, none, none⟩] "g".toList 2)) :=
  ⟨by decide, rank_entries_query_spec _ _ 2 (by decide)⟩

/-- C6: with an empty query, `_rank_entries` returns exactly the first
`limit` entries of the pool sorted by last_visit_time descending (a null
last_visit_time sorting as 0): the sorted pool is a permutation of the
input pool and the returned sequence is pairwise non-increasing in
last_visit_time. -/
theorem rank_entries_no_query_spec (entries : List VisitEntry) (limit : Nat) :
    _rank_entries entries [] limit = (entries.mergeSort lvtLe).take limit
    ∧ (entries.mergeSort lvtLe).Perm entries
    ∧ List.Pairwise (fun a b => lvtKey b ≤ lvtKey a)
        (_rank_entries entries [] limit) := by
  have heq : _rank_entries entries [] limit = (entries.mergeSort lvtLe).take limit := by
    unfold _rank_entries
    rcases em (entries = []) with he | he
    · subst he
      simp
    · rw [if_neg he, if_pos rfl]
  refine ⟨heq, List.mergeSort_perm entries lvtLe, ?_⟩
  rw [heq]
  have hsorted : List.Pairwise (fun a b => lvtLe a b = true)
      ((entries.mergeSort lvtLe).take limit) :=
    List.Pairwise.sublist (List.take_sublist _ _)
      (List.sorted_mergeSort lvtLe_trans lvtLe_total _)
  refine hsorted.imp ?_
  intro a b hab
  simpa only [lvtLe, decide_eq_true_eq] using hab

/-- A raw row of the `urls` table, with every column nullable. -/
structure Row where
  url : Option Str := none
  title : Option Str := none
  visit_count : Option Int := none
  last_visit_time : Option Int := none
  typed_count : Option Int := none
deriving DecidableEq

/-- SQLite's default LIKE case folding: ASCII upper case folds to lower
case, every other character (including Cyrillic) is compared as is. -/
def likeFold (c : Char) : Char :=
  if 'A' ≤ c ∧ c ≤ 'Z' then Char.ofNat (c.toNat + 32) else c

/-- Model of SQLite LIKE matching: `%` matches any sequence, `_` matches
any single character, and other characters match under ASCII case
folding. -/
def likeMatch : Str → Str → Bool
  | [], s => s.isEmpty
  | c :: p, s =>
    if c = '%' then s.tails.any (fun t => likeMatch p t)
    else if c = '_' then
      match s with
      | [] => false
      | _ :: t => likeMatch p t
    else
      match s with
      | [] => false
      | d :: t => (likeFold c == likeFold d) && likeMatch p t

/-- The pattern the fetcher builds, `f'%{query}%'`, with no escaping of
wildcard characters occurring in the query. -/
def likePattern (q : Str) : Str := '%' :: (q ++ ['%'])

/-- A LIKE comparison against a nullable column: NULL never matches. -/
def likeOpt (pat : Str) : Option Str → Bool
  | none => false
  | some s => likeMatch pat s

/-- The WHERE clause of the query branch:
`url LIKE '%q%' OR title LIKE '%q%'`. -/
def rowMatch (q : Str) (r : Row) : Bool :=
  likeOpt (likePattern q) r.url || likeOpt (likePattern q) r.title

/-- ORDER BY last_visit_time DESC; SQLite places NULLs last in a
descending order, so NULL compares below every value. -/
def optIntLe : Option Int → Option Int → Bool
  | none, _ => true
  | some _, none => false
  | some a, some b => decide (a ≤ b)

/-- Row comparison realising ORDER BY last_visit_time DESC. -/
def rowRecencyLe (a b : Row) : Bool := optIntLe b.last_visit_time a.last_visit_time

/-- Rows produced by the SQL of `_fetch_entries` over the table
contents: the query branch filters by the LIKE clause and fetches at
most `min(max(limit * 5, 50), 500)` rows, the no-query branch fetches at
most `limit` rows, both most recent first. -/
def fetchRows (table : List Row) (query : Str) (limit : Nat) : List Row :=
  if query = [] then (table.mergeSort rowRecencyLe).take limit
  else ((table.filter (rowMatch query)).mergeSort rowRecencyLe).take
    (min (max (limit * 5) 50) 500)

/-- Row-to-entry mapping of `_fetch_entries`: only `typed_count` is
defaulted (`typed_count or 0`); `visit_count` and `last_visit_time` are
stored unchanged. -/
def rowToEntry (r : Row) : VisitEntry :=
  { url := r.url, title := r.title, visit_count := r.visit_count,
    last_visit_time := r.last_visit_time, typed_count := some (r.typed_count.getD 0) }

/-- Model of the entries returned by `_fetch_entries(db_path, query,
limit)`, as a function of the snapshot's table contents.  The temporary
copy lifecycle is modelled separately by `fetchEntriesRun`. -/
def _fetch_entries (table : List Row) (query : Str) (limit : Nat) : List VisitEntry :=
  (fetchRows table query limit).map rowToEntry

/-- Case-insensitive substring containment in the specification's sense,
with SQLite's ASCII folding. -/
def containsCI (q s : Str) : Bool := isSubstrOf (q.map likeFold) (s.map likeFold)

/-- The specification's description of the WHERE clause: URL or title
contains the query as a case-insensitive substring. -/
def rowContainsCI (q : Str) (r : Row) : Bool :=
  (match r.url with
   | none => false
   | some s => containsCI q s) ||
  (match r.title with
   | none => false
   | some s => containsCI q s)

/-- Absence of LIKE wildcard characters from a query. -/
def noWildcard (q : Str) : Bool := q.all (fun c => !(c == '%') && !(c == '_'))

theorem optIntLe_trans (x y z : Option Int) (h1 : optIntLe x y = true)
    (h2 : optIntLe y z = true) : optIntLe x z = true := by
  cases x with
  | none => rfl
  | some a =>
    cases y with
    | none => exact absurd h1 (by simp [optIntLe])
    | some b =>
      cases z with
      | none => exact absurd h2 (by simp [optIntLe])
      | some c =>
        simp only [optIntLe, decide_eq_true_eq] at h1 h2 ⊢
        omega

theorem optIntLe_total (x y : Option Int) : (optIntLe x y || optIntLe y x) = true := by
  cases x with
  | none => rfl
  | some a =>
    cases y with
    | none => rfl
    | some b =>
      simp only [optIntLe, Bool.or_eq_true, decide_eq_true_eq]
      omega

theorem rowRecencyLe_trans (a b c : Row) (h1 : rowRecencyLe a b = true)
    (h2 : rowRecencyLe b c = true) : rowRecencyLe a c = true :=
  optIntLe_trans c.last_visit_time b.last_visit_time a.last_visit_time h2 h1

theorem rowRecencyLe_total (a b : Row) : (rowRecencyLe a b || rowRecencyLe b a) = true := by
  have := optIntLe_total b.last_visit_time a.last_visit_time
  simp only [rowRecencyLe]
  simpa [Bool.or_comm] using this

/-- An empty pattern suffix always matches some tail. -/
theorem tails_any_isEmpty (t : Str) : (t.tails.any (fun s => s.isEmpty)) = true := by
  induction t with
  | nil => rfl
  | cons c rest ih => simp [List.tails_cons, ih]

/-- A wildcard-free pattern followed by `%` matches exactly the strings
it case-folds to a prefix of. -/
theorem likeMatch_literal (q : Str) (h : noWildcard q = true) (t : Str) :
    likeMatch (q ++ ['%']) t = (q.map likeFold).isPrefixOf (t.map likeFold) := by
  induction q generalizing t with
  | nil =>
    simp only [List.nil_append, List.map_nil, List.isPrefixOf]
    show likeMatch ['%'] t = true
    unfold likeMatch
    rw [if_pos rfl]
    have : (fun s => likeMatch [] s) = (fun s : Str => s.isEmpty) := by
      funext s
      rfl
    rw [this]
    exact tails_any_isEmpty t
  | cons c q ih =>
    have h' := h
    unfold noWildcard at h'
    simp only [List.all_cons, Bool.and_eq_true] at h'
    have hc1 : ¬ c = '%' := by simpa using h'.1.1
    have hc2 : ¬ c = '_' := by simpa using h'.1.2
    have hq : noWildcard q = true := h'.2
    cases t with
    | nil =>
      simp only [List.cons_append, List.map_nil]
      unfold likeMatch
      rw [if_neg hc1, if_neg hc2]
      rfl
    | cons d t =>
      simp only [List.cons_append, List.map_cons]
      unfold likeMatch
      rw [if_neg hc1, if_neg hc2]
      show (likeFold c == likeFold d && likeMatch (q ++ ['%']) t) = _
      rw [ih hq t]
      rfl

/-- Substring containment is a prefix match at some tail. -/
theorem isSubstrOf_eq_tails_any (q s : Str) :
    isSubstrOf q s = s.tails.any (fun t => q.isPrefixOf t) := by
  induction s with
  | nil => simp [isSubstrOf, List.tails]
  | cons c rest ih => simp [isSubstrOf, List.tails_cons, ih]

/-- Tails of a mapped string are the mapped tails. -/
theorem tails_map_eq (f : Char → Char) (s : Str) :
    (s.map f).tails = s.tails.map (List.map f) := by
  induction s with
  | nil => rfl
  | cons c rest ih => simp [List.tails_cons, ih]

/-- For wildcard-free queries the built LIKE pattern is exactly
case-insensitive substring containment. -/
theorem likeMatch_pattern_eq_containsCI (q s : Str) (h : noWildcard q = true) :
    likeMatch (likePattern q) s = containsCI q s := by
  unfold likePattern containsCI
  show likeMatch ('%' :: (q ++ ['%'])) s = _
  unfold likeMatch
  rw [if_pos rfl]
  rw [isSubstrOf_eq_tails_any, tails_map_eq]
  rw [List.any_map]
  apply congrArg
  funext t
  simp only [Function.comp_apply]
  exact likeMatch_literal q h t

/-- C3 (amended): the record fetcher requests at most `limit` most
recent rows for the empty query, and at most `min(max(limit * 5, 50),
500)` rows matching the LIKE pattern `'%' + query + '%'` for a
non-empty query; the returned rows are ordered by last_visit_time
descending, and for queries free of the LIKE wildcards `%` and `_` the
LIKE filter coincides with ASCII-case-insensitive substring containment
in URL or title. -/
theorem fetch_rows_policy (table : List Row) (query : Str) (limit : Nat) :
    fetchRows table [] limit = (table.mergeSort rowRecencyLe).take limit
    ∧ (query ≠ [] → fetchRows table query limit =
        ((table.filter (rowMatch query)).mergeSort rowRecencyLe).take
          (min (max (limit * 5) 50) 500))
    ∧ List.Pairwise (fun a b => rowRecencyLe a b = true) (fetchRows table query limit)
    ∧ (noWildcard query = true →
        table.filter (rowMatch query) = table.filter (rowContainsCI query)) := by
  refine ⟨?_, ?_, ?_, ?_⟩
  · unfold fetchRows
    rw [if_pos rfl]
  · intro h
    unfold fetchRows
    rw [if_neg h]
  · unfold fetchRows
    rcases em (query = []) with h | h
    · rw [if_pos h]
      exact List.Pairwise.sublist (List.take_sublist _ _)
        (List.sorted_mergeSort rowRecencyLe_trans rowRecencyLe_total _)
    · rw [if_neg h]
      exact List.Pairwise.sublist (List.take_sublist _ _)
        (List.sorted_mergeSort rowRecencyLe_trans rowRecencyLe_total _)
  · intro h
    apply List.filter_congr
    intro r _
    obtain ⟨u, ti, v, l, tc⟩ := r
    cases u <;> cases ti <;>
      simp only [rowMatch, rowContainsCI, likeOpt,
        fun s => likeMatch_pattern_eq_containsCI query s h]

/-- Witness for C3's theorem at a concrete table. -/
theorem fetch_rows_policy_w :
    fetchRows [⟨some "ab".toList, none, none, some 1, none⟩] [] 3
        = ([⟨some "ab".toList, none, none, some 1, none⟩].mergeSort rowRecencyLe).take 3
    ∧ (("a".toList : Str) ≠ [] → fetchRows [⟨some "ab".toList, none, none, some 1, none⟩]
          "a".toList 3 =
        (([⟨some "ab".toList, none, none, some 1, none⟩].filter
            (rowMatch "a".toList)).mergeSort rowRecencyLe).take (min (max (3 * 5) 50) 500))
    ∧ List.Pairwise (fun a b => rowRecencyLe a b = true)
        (fetchRows [⟨some "ab".toList, none, none, some 1, none⟩] "a".toList 3)
    ∧ (noWildcard "a".toList = true →
        [⟨some "ab".toList, none, none, some 1, none⟩].filter (rowMatch "a".toList)
          = [⟨some "ab".toList, none, none, some 1, none⟩].filter
              (rowContainsCI "a".toList)) :=
  fetch_rows_policy [⟨some "ab".toList, none, none, some 1, none⟩] "a".toList 3

/-- Counterexample for C3 as stated: the query consisting of the single
character `_` is a LIKE wildcard, so the fetch returns a row whose URL
and title do not contain the query as a (case-insensitive) substring at
all. -/
theorem fetch_rows_substring_cex :
    fetchRows [⟨some ['x'], none, none, some 1, none⟩] ['_'] 1
      = [⟨some ['x'], none, none, some 1, none⟩]
    ∧ rowContainsCI ['_'] ⟨some ['x'], none, none, some 1, none⟩ = false := by
  constructor
  · unfold fetchRows
    rw [if_neg (by decide : ¬(['_'] : Str) = [])]
    rw [(by decide : List.filter (rowMatch ['_'])
          [(⟨some ['x'], none, none, some 1, none⟩ : Row)]
        = [⟨some ['x'], none, none, some 1, none⟩])]
    rw [List.mergeSort_singleton]
    rfl
  · decide

/-- Lifecycle model of the temporary snapshot directory across one
`_fetch_entries` call: `tempfile.mkdtemp` creates the directory, then
`shutil.copy2` runs — still outside the try block — with outcome
`copyFailure`; inside the try block the body reads the copy
(`bodyFailure` models a sqlite3/OS failure there) and the finally clause
removes the directory with `ignore_errors=True` (`rmtreeFails` models a
failed removal, which is swallowed). -/
structure FetchRun (ε : Type) where
  result : Except ε (List VisitEntry)
  tmpDirExists : Bool

/-- State-passing model of `_fetch_entries`' resource behaviour,
tracking whether the temporary directory still exists on return. -/
def fetchEntriesRun (ε : Type) (copyFailure : Option ε) (bodyFailure : Option ε)
    (rmtreeFails : Bool) (table : List Row) (query : Str) (limit : Nat) :
    FetchRun ε :=
  match copyFailure with
  | some e => ⟨Except.error e, true⟩
  | none =>
    match bodyFailure with
    | some e => ⟨Except.error e, rmtreeFails⟩
    | none => ⟨Except.ok (_fetch_entries table query limit), rmtreeFails⟩

/-- C5: cleanup behaviour of the record fetcher.  On every path that
reaches the try block the finally clause removes the temporary directory
(when the removal itself succeeds), and a removal failure is swallowed —
the result never depends on it.  But when the copy step itself fails,
the directory created by mkdtemp survives, because `_safe_copy` runs
before the try/finally: the claimed contract is violated on that path. -/
theorem fetch_entries_cleanup (ε : Type) (e : ε) (bodyFailure : Option ε)
    (rmtreeFails : Bool) (table : List Row) (query : Str) (limit : Nat) :
    ((fetchEntriesRun ε (some e) bodyFailure rmtreeFails table query limit).result
        = Except.error e
      ∧ (fetchEntriesRun ε (some e) bodyFailure rmtreeFails table query limit).tmpDirExists
        = true)
    ∧ (fetchEntriesRun ε none bodyFailure false table query limit).tmpDirExists = false
    ∧ (fetchEntriesRun ε none bodyFailure rmtreeFails table query limit).result
        = (fetchEntriesRun ε none bodyFailure false table query limit).result := by
  refine ⟨⟨rfl, rfl⟩, ?_, ?_⟩ <;> cases bodyFailure <;> rfl

/-- One element of the `db_sources` iterable: a dict with optional keys
`path`, `profile_label`, `profile_icon`, `profile_id`. -/
structure DbSource where
  path : Option Str := none
  profile_label : Option Str := none
  profile_icon : Option Str := none
  profile_id : Option Str := none
deriving DecidableEq

/-- External collaborators of `search_history`: the per-path outcome of
`_fetch_entries` (either its entry list or the sqlite3.Error/OSError it
raised), together with `get_profile_label` and
`get_profile_icon_path`, which never raise. -/
structure Env (ε : Type) where
  fetch : Str → Str → Nat → Except ε (List VisitEntry)
  labelOf : Str → Str
  iconOf : Str → Option Str

/-- Python truthiness of `source.get('path')`: both a missing key and an
empty string are skipped. -/
def pathOf (s : DbSource) : Option Str :=
  match s.path with
  | some (c :: cs) => some (c :: cs)
  | _ => none

/-- Python `value or default` for an optional string with a string
default. -/
def orDefaultStr (v : Option Str) (d : Str) : Str :=
  match v with
  | some (c :: cs) => c :: cs
  | _ => d

/-- Python `value or default` for an optional string with an optional
default. -/
def orElseIcon (v : Option Str) (d : Option Str) : Option Str :=
  match v with
  | some (c :: cs) => some (c :: cs)
  | _ => d

/-- The loop body of `search_history` for one source: `none` when the
source is skipped for lack of a path, otherwise the enriched entries or
the recorded failure. -/
def sourceFetch (ε : Type) (env : Env ε) (query : Str) (limit : Nat)
    (s : DbSource) : Option (Except ε (List VisitEntry)) :=
  match pathOf s with
  | none => none
  | some p =>
    match env.fetch p query limit with
    | Except.error e => some (Except.error e)
    | Except.ok entries =>
      some (Except.ok (entries.map (fun en =>
        { en with
          profile_label := some (orDefaultStr s.profile_label (env.labelOf p)),
          profile_icon := orElseIcon s.profile_icon (env.iconOf p),
          profile_id := s.profile_id })))

/-- The accumulation loop of `search_history`: the combined entry pool
and the recorded errors, in source order. -/
def gather (ε : Type) (env : Env ε) (query : Str) (limit : Nat) :
    List DbSource → List VisitEntry × List ε
  | [] => ([], [])
  | s :: rest =>
    match sourceFetch ε env query limit s with
    | none => gather ε env query limit rest
    | some (Except.ok entries) =>
      (entries ++ (gather ε env query limit rest).1, (gather ε env query limit rest).2)
    | some (Except.error e) =>
      ((gather ε env query limit rest).1, e :: (gather ε env query limit rest).2)

/-- The `db_sources` argument: either a bare path string or a list of
source dicts. -/
inductive DbSources where
  | strPath : Str → DbSources
  | list : List DbSource → DbSources

/-- A returned result tuple `(url, title, visit_count, last_visit_time,
profile_label, profile_icon, profile_id)`. -/
abbrev ResultTuple :=
  Option Str × Option Str × Option Int × Option Int × Str × Option Str × Option Str

/-- Projection of a ranked entry to the returned tuple. -/
def toTuple (e : VisitEntry) : ResultTuple :=
  (e.url, e.title, e.visit_count, e.last_visit_time, e.profile_label.getD [],
   e.profile_icon, e.profile_id)

/-- The tail of `search_history` after `db_sources` has been normalised
to a list: accumulate, surface the first recorded failure when the pool
is empty and a failure exists, otherwise rank and project. -/
def searchList (ε : Type) (env : Env ε) (srcs : List DbSource) (query : Str)
    (limit : Nat) : Except ε (List ResultTuple) :=
  match gather ε env query limit srcs with
  | ([], e :: _) => Except.error e
  | (combined, _) => Except.ok ((_rank_entries combined query limit).map toTuple)

/-- Model of `search_history(db_sources, query, limit)`. -/
def search_history (ε : Type) (env : Env ε) (db_sources : DbSources) (query : Str)
    (limit : Nat) : Except ε (List ResultTuple) :=
  match db_sources with
  | DbSources.strPath p =>
    searchList ε env [⟨some p, some (env.labelOf p), env.iconOf p, none⟩] query limit
  | DbSources.list srcs =>
    if srcs = [] then Except.ok []
    else searchList ε env srcs query limit

/-- C10: a call whose `db_sources` is an empty list, or any list in
which every source lacks a usable path, returns the empty list and
raises no error. -/
theorem search_history_no_paths (ε : Type) (env : Env ε) (srcs : List DbSource)
    (query : Str) (limit : Nat) (h : ∀ s ∈ srcs, pathOf s = none) :
    search_history ε env (DbSources.list srcs) query limit = Except.ok [] := by
  have hg : gather ε env query limit srcs = ([], []) := by
    induction srcs with
    | nil => rfl
    | cons s rest ih =>
      have hs : sourceFetch ε env query limit s = none := by
        unfold sourceFetch
        rw [h s (by simp)]
      unfold gather
      rw [hs]
      exact ih (fun x hx => h x (by simp [hx]))
  simp only [search_history]
  rcases em (srcs = []) with he | he
  · rw [if_pos he]
  · rw [if_neg he]
    unfold searchList
    rw [hg]
    simp [_rank_entries]

/-- Witness for C10: the empty list of sources and a path-less source. -/
theorem search_history_no_paths_w :
    search_history Unit ⟨fun _ _ _ => Except.ok [], fun _ => [], fun _ => none⟩
        (DbSources.list []) "q".toList 20 = Except.ok []
    ∧ search_history Unit ⟨fun _ _ _ => Except.ok [], fun _ => [], fun _ => none⟩
        (DbSources.list [⟨none, none, none, none⟩, ⟨some [], none, none, none⟩])
        "q".toList 20 = Except.ok [] :=
  ⟨search_history_no_paths Unit _ [] _ 20 (by intro s hs; cases hs),
   search_history_no_paths Unit _ _ _ 20 (by decide)⟩

/-- The pool gathered from a source list is nonempty as soon as one
source's fetch succeeded with a nonempty entry list. -/
theorem gather_fst_ne_nil_of_mem (ε : Type) (env : Env ε) (query : Str) (limit : Nat)
    (srcs : List DbSource) (s : DbSource) (entries : List VisitEntry)
    (hmem : s ∈ srcs) (hs : sourceFetch ε env query limit s = some (Except.ok entries))
    (hne : entries ≠ []) : (gather ε env query limit srcs).1 ≠ [] := by
  induction srcs with
  | nil => cases hmem
  | cons t rest ih =>
    rcases List.mem_cons.1 hmem with rfl | hmem'
    · unfold gather
      rw [hs]
      simp only [ne_eq, List.append_eq_nil]
      intro hc
      exact hne hc.1
    · unfold gather
      rcases hsf : sourceFetch ε env query limit t with _ | ⟨_ | es⟩
      · exact ih hmem'
      · simpa using ih hmem'
      · simp only [ne_eq, List.append_eq_nil, not_and]
        intro _
        exact ih hmem'

/-- When the gathered pool is nonempty, or no failure was recorded,
`searchList` returns a value. -/
theorem searchList_ok (ε : Type) (env : Env ε) (query : Str) (limit : Nat)
    (srcs : List DbSource)
    (h : (gather ε env query limit srcs).1 ≠ [] ∨ (gather ε env query limit srcs).2 = []) :
    ∃ l, searchList ε env srcs query limit = Except.ok l := by
  unfold searchList
  rcases hg : gather ε env query limit srcs with ⟨combined, errors⟩
  rw [hg] at h
  cases combined with
  | nil =>
    cases errors with
    | nil => exact ⟨_, rfl⟩
    | cons e tl =>
      rcases h with h | h
      · exact absurd rfl h
      · cases h
  | cons x xs => exact ⟨_, rfl⟩

/-- C4 (amended): a failing source is recorded and the loop continues
with the remaining sources; the first recorded failure is surfaced
exactly when the combined pool ends up empty while a failure was
recorded — in particular a source succeeding with zero entries does not
prevent the error — and whenever some source's fetch succeeds with at
least one entry, no error is raised. -/
theorem search_history_failure_policy (ε : Type) (env : Env ε) (query : Str)
    (limit : Nat) :
    (∀ s e rest, sourceFetch ε env query limit s = some (Except.error e) →
      gather ε env query limit (s :: rest)
        = ((gather ε env query limit rest).1, e :: (gather ε env query limit rest).2))
    ∧ (∀ srcs e tl, (gather ε env query limit srcs).1 = [] →
        (gather ε env query limit srcs).2 = e :: tl →
        search_history ε env (DbSources.list srcs) query limit = Except.error e)
    ∧ (∀ srcs, ((gather ε env query limit srcs).1 ≠ []
          ∨ (gather ε env query limit srcs).2 = []) →
        ∃ l, search_history ε env (DbSources.list srcs) query limit = Except.ok l)
    ∧ (∀ srcs s entries, s ∈ srcs →
        sourceFetch ε env query limit s = some (Except.ok entries) → entries ≠ [] →
        ∃ l, search_history ε env (DbSources.list srcs) query limit = Except.ok l) := by
  refine ⟨?_, ?_, ?_, ?_⟩
  · intro s e rest hs
    simp only [gather]
    rw [hs]
  · intro srcs e tl h1 h2
    have hsrcs : srcs ≠ [] := by
      intro hc
      subst hc
      cases h2
    simp only [search_history]
    rw [if_neg hsrcs]
    unfold searchList
    rcases hg : gather ε env query limit srcs with ⟨combined, errors⟩
    rw [hg] at h1 h2
    simp only at h1 h2
    subst h1
    subst h2
    rfl
  · intro srcs h
    rcases em (srcs = []) with he | he
    · subst he
      exact ⟨[], by simp [search_history]⟩
    · simp only [search_history]
      rw [if_neg he]
      exact searchList_ok ε env query limit srcs h
  · intro srcs s entries hmem hs hne
    have hsrcs : srcs ≠ [] := by
      intro hc
      subst hc
      cases hmem
    simp only [search_history]
    rw [if_neg hsrcs]
    exact searchList_ok ε env query limit srcs
      (Or.inl (gather_fst_ne_nil_of_mem ε env query limit srcs s entries hmem hs hne))

/-- Witness for C4's amended theorem. -/
theorem search_history_failure_policy_w :
    (∀ s e rest,
      sourceFetch Unit ⟨fun _ _ _ => Except.ok [], fun _ => [], fun _ => none⟩
          "q".toList 20 s = some (Except.error e) →
      gather Unit ⟨fun _ _ _ => Except.ok [], fun _ => [], fun _ => none⟩
          "q".toList 20 (s :: rest)
        = ((gather Unit ⟨fun _ _ _ => Except.ok [], fun _ => [], fun _ => none⟩
              "q".toList 20 rest).1,
           e :: (gather Unit ⟨fun _ _ _ => Except.ok [], fun _ => [], fun _ => none⟩
              "q".toList 20 rest).2))
    ∧ (∀ srcs e tl,
        (gather Unit ⟨fun _ _ _ => Except.ok [], fun _ => [], fun _ => none⟩
            "q".toList 20 srcs).1 = [] →
        (gather Unit ⟨fun _ _ _ => Except.ok [], fun _ => [], fun _ => none⟩
            "q".toList 20 srcs).2 = e :: tl →
        search_history Unit ⟨fun _ _ _ => Except.ok [], fun _ => [], fun _ => none⟩
          (DbSources.list srcs) "q".toList 20 = Except.error e)
    ∧ (∀ srcs,
        ((gather Unit ⟨fun _ _ _ => Except.ok [], fun _ => [], fun _ => none⟩
            "q".toList 20 srcs).1 ≠ []
          ∨ (gather Unit ⟨fun _ _ _ => Except.ok [], fun _ => [], fun _ => none⟩
              "q".toList 20 srcs).2 = []) →
        ∃ l, search_history Unit ⟨fun _ _ _ => Except.ok [], fun _ => [], fun _ => none⟩
          (DbSources.list srcs) "q".toList 20 = Except.ok l)
    ∧ (∀ srcs s entries, s ∈ srcs →
        sourceFetch Unit ⟨fun _ _ _ => Except.ok [], fun _ => [], fun _ => none⟩
            "q".toList 20 s = some (Except.ok entries) → entries ≠ [] →
        ∃ l, search_history Unit ⟨fun _ _ _ => Except.ok [], fun _ => [], fun _ => none⟩
          (DbSources.list srcs) "q".toList 20 = Except.ok l) :=
  search_history_failure_policy Unit ⟨fun _ _ _ => Except.ok [], fun _ => [], fun _ => none⟩
    "q".toList 20

/-- Environment for the C4 counterexample: the database at path "a"
reads fine but holds no rows; the database at path "b" fails to read. -/
def cexEnv : Env Nat :=
  ⟨fun p _ _ => if p = ['a'] then Except.ok [] else Except.error 7,
   fun _ => [], fun _ => none⟩

/-- Counterexample for C4 as stated: source "a" fetches successfully
(with zero entries) while source "b" fails, and search_history still
raises the recorded failure even though not every source's fetch
failed. -/
theorem search_error_despite_success_cex :
    search_history Nat cexEnv
        (DbSources.list [⟨some ['a'], none, none, none⟩, ⟨some ['b'], none, none, none⟩])
        ['q'] 5 = Except.error 7
    ∧ cexEnv.fetch ['a'] ['q'] 5 = Except.ok [] :=
  ⟨rfl, rfl⟩

/-- The paths `search_history` consults for a source list. -/
def sourcePaths (srcs : List DbSource) : List Str := srcs.filterMap pathOf

/-- Gathering depends only on the environment's behaviour at the
consulted paths. -/
theorem gather_congr (ε : Type) (env1 env2 : Env ε) (query : Str) (limit : Nat)
    (srcs : List DbSource)
    (h : ∀ p ∈ sourcePaths srcs,
      env1.fetch p query limit = env2.fetch p query limit
      ∧ env1.labelOf p = env2.labelOf p ∧ env1.iconOf p = env2.iconOf p) :
    gather ε env1 query limit srcs = gather ε env2 query limit srcs := by
  induction srcs with
  | nil => rfl
  | cons s rest ih =>
    have hrest : ∀ p ∈ sourcePaths rest,
        env1.fetch p query limit = env2.fetch p query limit
        ∧ env1.labelOf p = env2.labelOf p ∧ env1.iconOf p = env2.iconOf p := by
      intro p hp
      apply h
      unfold sourcePaths at hp ⊢
      rw [List.filterMap_cons]
      rcases pathOf s with _ | q
      · exact hp
      · exact List.mem_cons_of_mem q hp
    have hsf : sourceFetch ε env1 query limit s = sourceFetch ε env2 query limit s := by
      unfold sourceFetch
      rcases hps : pathOf s with _ | p
      · rfl
      · have hpmem : p ∈ sourcePaths (s :: rest) := by
          unfold sourcePaths
          rw [List.filterMap_cons, hps]
          exact List.mem_cons_self p _
        rcases h p hpmem with ⟨hf, hl, hi⟩
        dsimp only
        simp only [hf, hl, hi]
    unfold gather
    rw [hsf, ih hrest]

/-- C9: the search result is a deterministic function of the database
contents (the fetch outcomes at the consulted paths), the metadata at
those paths, the source list, the query and the limit: two runs over
environments that agree there return identical ordered output. -/
theorem search_history_deterministic (ε : Type) (env1 env2 : Env ε)
    (srcs : List DbSource) (query : Str) (limit : Nat)
    (h : ∀ p ∈ sourcePaths srcs,
      env1.fetch p query limit = env2.fetch p query limit
      ∧ env1.labelOf p = env2.labelOf p ∧ env1.iconOf p = env2.iconOf p) :
    search_history ε env1 (DbSources.list srcs) query limit
      = search_history ε env2 (DbSources.list srcs) query limit := by
  simp only [search_history]
  rcases em (srcs = []) with he | he
  · rw [if_pos he, if_pos he]
  · rw [if_neg he, if_neg he]
    unfold searchList
    rw [gather_congr ε env1 env2 query limit srcs h]

/-- Witness for C9: two identical environments trivially agree. -/
theorem search_history_deterministic_w :
    search_history Unit ⟨fun _ _ _ => Except.ok [], fun _ => [], fun _ => none⟩
        (DbSources.list [⟨some ['a'], none, none, none⟩]) ['q'] 3
      = search_history Unit ⟨fun _ _ _ => Except.ok [], fun _ => [], fun _ => none⟩
        (DbSources.list [⟨some ['a'], none, none, none⟩]) ['q'] 3 :=
  search_history_deterministic Unit
    ⟨fun _ _ _ => Except.ok [], fun _ => [], fun _ => none⟩
    ⟨fun _ _ _ => Except.ok [], fun _ => [], fun _ => none⟩
    [⟨some ['a'], none, none, none⟩] ['q'] 3 (fun _ _ => ⟨rfl, rfl, rfl⟩)

/-- Counterexample for C8 as stated: a row with a null visit_count maps
to an entry whose visit_count is still null, not 0 (while typed_count is
indeed defaulted). -/
theorem row_to_entry_visit_count_cex :
    (rowToEntry ⟨some ['u'], none, none, some 5, none⟩).visit_count = none
    ∧ ¬ (rowToEntry ⟨some ['u'], none, none, some 5, none⟩).visit_count = some 0
    ∧ (rowToEntry ⟨some ['u'], none, none, some 5, none⟩).typed_count = some 0 := by
  refine ⟨rfl, ?_, rfl⟩
  intro h
  cases h

/-- C8 (amended): the row mapping defaults a null typed_count to 0 and
keeps visit_count unchanged (a null visit_count is only treated as 0
later, when the popularity bonus is computed), and a null
last_visit_time is treated as 0 by both sort keys of the ranking
engine. -/
theorem fetch_null_defaults (r : Row) (e : VisitEntry) (ql : Str) :
    (rowToEntry r).typed_count = some (r.typed_count.getD 0)
    ∧ (r.typed_count = none → (rowToEntry r).typed_count = some 0)
    ∧ (rowToEntry r).visit_count = r.visit_count
    ∧ (e.visit_count = none →
        _score_row e.url e.title e.visit_count e.typed_count ql
          = _score_row e.url e.title (some 0) e.typed_count ql)
    ∧ (e.last_visit_time = none → lvtKey e = 0 ∧ (mkScored ql e).2.1 = 0) := by
  refine ⟨rfl, ?_, rfl, ?_, ?_⟩
  · intro h
    simp [rowToEntry, h]
  · intro h
    rw [h]
    rfl
  · intro h
    constructor
    · unfold lvtKey
      rw [h]
      rfl
    · unfold mkScored
      rw [h]
      rfl

/-- Witness for C8's amended theorem at a concrete row and entry. -/
theorem fetch_null_defaults_w :
    (rowToEntry ⟨some ['u'], none, none, none, none⟩).typed_count
        = some ((⟨some ['u'], none, none, none, none⟩ : Row).typed_count.getD 0)
    ∧ ((⟨some ['u'], none, none, none, none⟩ : Row).typed_count = none →
        (rowToEntry ⟨some ['u'], none, none, none, none⟩).typed_count = some 0)
    ∧ (rowToEntry ⟨some ['u'], none, none, none, none⟩).visit_count
        = (⟨some ['u'], none, none, none, none⟩ : Row).visit_count
    ∧ ((⟨none, none, none, none, none, none, none, none⟩ : VisitEntry).visit_count = none →
        _score_row none none none none ['q'] = _score_row none none (some 0) none ['q'])
    ∧ ((⟨none, none, none, none, none, none, none, none⟩ : VisitEntry).last_visit_time = none →
        lvtKey ⟨none, none, none, none, none, none, none, none⟩ = 0
        ∧ (mkScored ['q'] ⟨none, none, none, none, none, none, none, none⟩).2.1 = 0) :=
  fetch_null_defaults ⟨some ['u'], none, none, none, none⟩
    ⟨none, none, none, none, none, none, none, none⟩ ['q']

/-- Parsed content of the browser's shared state file ("Local State"),
as `_preferred_profiles` reads it: the last-used profile id, the
last-active list, and the info-cache keys in stored order. -/
structure LocalState where
  last_used : Option Str := none
  last_active_profiles : List Str := []
  info_cache_keys : List Str := []

/-- Abstract view of one configuration root directory and the
filesystem and metadata facts the locator consults: whether the root is
a directory, the parse of its shared state file (`none` models a
missing, unreadable or malformed file, the swallowed exception branch),
the directory listing, existence of candidate database files on disk,
and the label/icon resolved by `get_profile_metadata` for a path. -/
structure RootDir where
  isDir : Bool := true
  localState : Option LocalState := none
  listing : List Str := []
  historyExists : Str → Bool := fun _ => false
  labelOf : Str → Str := fun _ => []
  iconOf : Str → Option Str := fun _ => none

/-- os.path.join(base_dir, profile_id, 'History') for a relative,
non-empty-join profile id. -/
def histPath (base pid : Str) : Str := base ++ '/' :: (pid ++ '/' :: "History".toList)

/-- The `entries` list `_preferred_profiles` accumulates before its
dedup loop: last_used when truthy, then truthy last-active entries,
then every info-cache key. -/
def stateEntries (fs : RootDir) : List Str :=
  match fs.localState with
  | none => []
  | some st =>
    (match st.last_used with
     | some lu => if lu = [] then [] else [lu]
     | none => [])
    ++ st.last_active_profiles.filter (fun p => !p.isEmpty)
    ++ st.info_cache_keys

/-- Model of `_preferred_profiles`: the entries list deduplicated by the
`if entry not in ordered: ordered.append(entry)` loop. -/
def _preferred_profiles (fs : RootDir) : List Str :=
  (stateEntries fs).foldl (fun acc e => if e ∈ acc then acc else acc ++ [e]) []

/-- The fixed-name and prefix heuristic of the directory scan. -/
def isProfileDirName (e : Str) : Bool :=
  e == "Default".toList || e == "Guest Profile".toList ||
  ("Profile".toList).isPrefixOf e || ("user".toList).isPrefixOf e

/-- Lexicographic comparison of strings by code point, modelling
Python's sorted() on the directory listing. -/
def strLe : Str → Str → Bool
  | [], _ => true
  | _ :: _, [] => false
  | a :: xs, b :: ys => if a = b then strLe xs ys else decide (a < b)

/-- The directory-scan candidates: the sorted listing filtered by the
name heuristic. -/
def heuristicNames (fs : RootDir) : List Str :=
  (fs.listing.mergeSort strLe).filter isProfileDirName

/-- The `add_candidate` closure: state is (seen paths, candidate
pairs of profile id and path). -/
def addCandidate (base : Str) (st : List Str × List (Str × Str)) (pid : Str) :
    List Str × List (Str × Str) :=
  let path := histPath base pid
  if path ∈ st.1 then st else (path :: st.1, st.2 ++ [(pid, path)])

/-- A discovered source as `_list_history_dbs_in_dir` returns it. -/
structure ProfileSource where
  path : Str
  profile_id : Str
  profile_label : Str
  profile_icon : Option Str
deriving DecidableEq

/-- Model of `_list_history_dbs_in_dir(base_dir)`. -/
def _list_history_dbs_in_dir (fs : RootDir) (base : Str) : List ProfileSource :=
  if fs.isDir = false then []
  else
    (((_preferred_profiles fs ++ heuristicNames fs).foldl
        (addCandidate base) ([], [])).2.filter
      (fun c => fs.historyExists c.2)).map
      (fun c => ⟨c.2, c.1, fs.labelOf c.2, fs.iconOf c.2⟩)

/-- Keep-first deduplication by a key, given the keys already seen. -/
def dedupByAux {α β : Type} [DecidableEq β] (key : α → β) (seen : List β) :
    List α → List α
  | [] => []
  | x :: xs =>
    if key x ∈ seen then dedupByAux key seen xs
    else x :: dedupByAux key (key x :: seen) xs

/-- The locator pipeline as the claim words it: the last-used id, then
the last-active entries, then the info-cache keys in stored order, then
the heuristic directory names; deduplicated by resolved database path
keeping first occurrences; only candidates whose database file exists
survive; label and icon resolved per path. -/
def locatorSpec (fs : RootDir) (base : Str) : List ProfileSource :=
  if fs.isDir = false then []
  else
    (((dedupByAux (histPath base) [] (stateEntries fs ++ heuristicNames fs)).map
        (fun pid => (pid, histPath base pid))).filter
      (fun c => fs.historyExists c.2)).map
      (fun c => ⟨c.2, c.1, fs.labelOf c.2, fs.iconOf c.2⟩)

/-- Deduplication only depends on the membership of the seen list. -/
theorem dedupByAux_congr {α β : Type} [DecidableEq β] (key : α → β)
    (s1 s2 : List β) (h : ∀ b, b ∈ s1 ↔ b ∈ s2) (l : List α) :
    dedupByAux key s1 l = dedupByAux key s2 l := by
  induction l generalizing s1 s2 with
  | nil => rfl
  | cons x xs ih =>
    unfold dedupByAux
    rcases em (key x ∈ s1) with hm | hm
    · rw [if_pos hm, if_pos ((h _).1 hm)]
      exact ih s1 s2 h
    · rw [if_neg hm, if_neg (fun hc => hm ((h _).2 hc))]
      rw [ih (key x :: s1) (key x :: s2) (by intro b; simp [h b])]

/-- The membership-append loop of `_preferred_profiles` is keep-first
deduplication. -/
theorem foldl_dedup_eq (l : List Str) (acc : List Str) :
    l.foldl (fun acc e => if e ∈ acc then acc else acc ++ [e]) acc
      = acc ++ dedupByAux id acc l := by
  induction l generalizing acc with
  | nil => simp [dedupByAux]
  | cons x xs ih =>
    simp only [List.foldl_cons]
    rcases em (x ∈ acc) with hm | hm
    · rw [if_pos hm]
      unfold dedupByAux
      rw [if_pos (show id x ∈ acc from hm)]
      exact ih acc
    · rw [if_neg hm]
      unfold dedupByAux
      rw [if_neg (show ¬ id x ∈ acc from hm)]
      rw [ih (acc ++ [x])]
      rw [dedupByAux_congr id (acc ++ [x]) (id x :: acc) (by intro b; simp [or_comm]) xs]
      simp

/-- The add_candidate fold is keep-first deduplication by resolved
path. -/
theorem foldl_addCandidate_eq (base : Str) (names : List Str) (seen : List Str)
    (acc : List (Str × Str)) :
    (names.foldl (addCandidate base) (seen, acc)).2
      = acc ++ (dedupByAux (histPath base) seen names).map
          (fun pid => (pid, histPath base pid)) := by
  induction names generalizing seen acc with
  | nil => simp [dedupByAux]
  | cons x xs ih =>
    simp only [List.foldl_cons]
    rcases em (histPath base x ∈ seen) with hm | hm
    · have ha : addCandidate base (seen, acc) x = (seen, acc) := by
        unfold addCandidate
        dsimp only
        rw [if_pos hm]
      have hd : dedupByAux (histPath base) seen (x :: xs)
          = dedupByAux (histPath base) seen xs := by
        simp only [dedupByAux]
        rw [if_pos hm]
      rw [ha, hd]
      exact ih seen acc
    · have ha : addCandidate base (seen, acc) x
          = (histPath base x :: seen, acc ++ [(x, histPath base x)]) := by
        unfold addCandidate
        dsimp only
        rw [if_neg hm]
      have hd : dedupByAux (histPath base) seen (x :: xs)
          = x :: dedupByAux (histPath base) (histPath base x :: seen) xs := by
        simp only [dedupByAux]
        rw [if_neg hm]
      rw [ha, hd, ih (histPath base x :: seen) (acc ++ [(x, histPath base x)])]
      simp

/-- Resolved paths determine the profile id under a fixed base. -/
theorem histPath_inj (base a b : Str) (h : histPath base a = histPath base b) :
    a = b := by
  unfold histPath at h
  have h1 := List.append_cancel_left h
  have h2 := List.cons.inj h1
  exact List.append_cancel_right h2.2

/-- Deduplicating by profile id first and then by resolved path is the
same as deduplicating by resolved path once, since the path determines
the id. -/
theorem dedupByAux_dedup_id (base : Str) (l1 : List Str) (l2 : List Str)
    (sp : List Str) (sk : List Str)
    (hinv : ∀ x, histPath base x ∈ sk ↔ x ∈ sp) :
    dedupByAux (histPath base) sk (dedupByAux id sp l1 ++ l2)
      = dedupByAux (histPath base) sk (l1 ++ l2) := by
  induction l1 generalizing sp sk with
  | nil => rfl
  | cons x xs ih =>
    rcases em (x ∈ sp) with hm | hm
    · have e1 : dedupByAux id sp (x :: xs) = dedupByAux id sp xs := by
        simp only [dedupByAux]
        rw [if_pos (show id x ∈ sp from hm)]
      rw [e1, ih sp sk hinv]
      have e2 : dedupByAux (histPath base) sk ((x :: xs) ++ l2)
          = dedupByAux (histPath base) sk (xs ++ l2) := by
        show dedupByAux (histPath base) sk (x :: (xs ++ l2)) = _
        simp only [dedupByAux]
        rw [if_pos ((hinv x).2 hm)]
      rw [e2]
    · have hk : ¬ histPath base x ∈ sk := fun hc => hm ((hinv x).1 hc)
      have hinv2 : ∀ y, histPath base y ∈ histPath base x :: sk ↔ y ∈ x :: sp := by
        intro y
        simp only [List.mem_cons]
        constructor
        · rintro (hy | hy)
          · exact Or.inl (histPath_inj base y x hy)
          · exact Or.inr ((hinv y).1 hy)
        · rintro (rfl | hy)
          · exact Or.inl rfl
          · exact Or.inr ((hinv y).2 hy)
      have e1 : dedupByAux id sp (x :: xs) = x :: dedupByAux id (x :: sp) xs := by
        simp only [dedupByAux]
        rw [if_neg (show ¬ id x ∈ sp from hm)]
        rfl
      rw [e1]
      have e2 : dedupByAux (histPath base) sk
            (x :: (dedupByAux id (x :: sp) xs ++ l2))
          = x :: dedupByAux (histPath base) (histPath base x :: sk)
              (dedupByAux id (x :: sp) xs ++ l2) := by
        simp only [dedupByAux]
        rw [if_neg hk]
      have e3 : dedupByAux (histPath base) sk ((x :: xs) ++ l2)
          = x :: dedupByAux (histPath base) (histPath base x :: sk) (xs ++ l2) := by
        show dedupByAux (histPath base) sk (x :: (xs ++ l2)) = _
        simp only [dedupByAux]
        rw [if_neg hk]
      show dedupByAux (histPath base) sk
          (x :: (dedupByAux id (x :: sp) xs ++ l2)) = _
      rw [e2, e3, ih (x :: sp) (histPath base x :: sk) hinv2]

/-- C7: the locator emits exactly the claim's pipeline — last-used id,
then last-active entries, then info-cache keys in stored order, then
heuristic directory names, deduplicated by resolved database path
keeping first occurrences, restricted to candidates whose database file
exists, with metadata resolved per path; and a missing or malformed
shared state file degrades to the directory heuristic alone instead of
an error. -/
theorem list_history_dbs_spec (fs : RootDir) (base : Str) :
    _list_history_dbs_in_dir fs base = locatorSpec fs base
    ∧ (fs.localState = none → fs.isDir = true →
        _list_history_dbs_in_dir fs base =
          (((dedupByAux (histPath base) [] (heuristicNames fs)).map
              (fun pid => (pid, histPath base pid))).filter
            (fun c => fs.historyExists c.2)).map
            (fun c => ⟨c.2, c.1, fs.labelOf c.2, fs.iconOf c.2⟩)) := by
  have hmain : _list_history_dbs_in_dir fs base = locatorSpec fs base := by
    unfold _list_history_dbs_in_dir locatorSpec
    rcases em (fs.isDir = false) with hd | hd
    · rw [if_pos hd, if_pos hd]
    · rw [if_neg hd, if_neg hd]
      have hc : ((_preferred_profiles fs ++ heuristicNames fs).foldl
            (addCandidate base) ([], [])).2
          = (dedupByAux (histPath base) [] (stateEntries fs ++ heuristicNames fs)).map
              (fun pid => (pid, histPath base pid)) := by
        rw [foldl_addCandidate_eq]
        simp only [List.nil_append]
        unfold _preferred_profiles
        rw [foldl_dedup_eq]
        simp only [List.nil_append]
        rw [dedupByAux_dedup_id base (stateEntries fs) (heuristicNames fs) [] []
          (by intro x; simp)]
      rw [hc]
  refine ⟨hmain, ?_⟩
  intro hls hdir
  rw [hmain]
  unfold locatorSpec
  rw [if_neg (by rw [hdir]; intro hc; cases hc)]
  rw [show stateEntries fs = [] from by unfold stateEntries; rw [hls]]
  rw [List.nil_append]

/-- Witness for C7 at a concrete root directory. -/
theorem list_history_dbs_spec_w :
    _list_history_dbs_in_dir
        ⟨true, none, ["Default".toList], fun _ => true, fun _ => [], fun _ => none⟩
        "/c".toList
      = locatorSpec
        ⟨true, none, ["Default".toList], fun _ => true, fun _ => [], fun _ => none⟩
        "/c".toList
    ∧ ((⟨true, none, ["Default".toList], fun _ => true, fun _ => [], fun _ => none⟩
          : RootDir).localState = none →
       (⟨true, none, ["Default".toList], fun _ => true, fun _ => [], fun _ => none⟩
          : RootDir).isDir = true →
        _list_history_dbs_in_dir
            ⟨true, none, ["Default".toList], fun _ => true, fun _ => [], fun _ => none⟩
            "/c".toList =
          (((dedupByAux (histPath "/c".toList)
              [] (heuristicNames
                ⟨true, none, ["Default".toList], fun _ => true, fun _ => [],
                  fun _ => none⟩)).map
              (fun pid => (pid, histPath "/c".toList pid))).filter
            (fun _ => true)).map
            (fun c => ⟨c.2, c.1, [], none⟩)) :=
  list_history_dbs_spec
    ⟨true, none, ["Default".toList], fun _ => true, fun _ => [], fun _ => none⟩
    "/c".toList

end HistorySearch
